import Mathlib

/-!
Shallow embedding of `interpose_uname.c` (2012-06-02 - Interposing dynamic
library calls): a preloaded shared object that exports `uname`, resolves the
shadowed original through the dynamic loader (RTLD_NEXT on Linux, an explicit
`dlopen("libc.dylib", RTLD_NOW)` handle on OS X), caches the pointer in a
static slot, delegates, and on success rewrites the `version` field of the
caller's `struct utsname` with the bounded copy
`strncpy(name->version, "Johnny 5", sizeof(name->version))`.

The loader is modelled as a list of modules in search order, each a named
symbol table mapping symbol names to code addresses; the behaviour attached
to an address is supplied by an environment `impls`. The static slot is
threaded explicitly through each call; a process-terminating path is an
`Outcome.exited` value recording the stream written, the text, and the exit
status.
-/

set_option maxRecDepth 4000

namespace Interpose

/-- Capacity of each `struct utsname` text field, `_SYS_NAMELEN` in the header
quoted by the source. -/
def SYS_NAMELEN : Nat := 256

/-- The caller-supplied `struct utsname`, each field a byte list. -/
structure Utsname where
  sysname : List Nat
  nodename : List Nat
  release : List Nat
  version : List Nat
  machine : List Nat
deriving DecidableEq

/-- Bytes that C `strncpy` writes into the first `n` destination slots: source
bytes up to the first null, then null padding to exactly `n` bytes. A source
list that runs out before a null is padded with nulls as well (the literal
used by the program carries its terminator, so that case is never hit). -/
def strncpyFill : List Nat → Nat → List Nat
  | _, 0 => []
  | [], Nat.succ m => List.replicate (Nat.succ m) 0
  | b :: rest, Nat.succ m =>
    if b = 0 then List.replicate (Nat.succ m) 0 else b :: strncpyFill rest m

/-- C `strncpy(dest, src, n)` on byte lists: the first `n` bytes of `dest` are
replaced by `strncpyFill src n`; bytes past index `n` are untouched. -/
def strncpy (dest src : List Nat) (n : Nat) : List Nat :=
  strncpyFill src n ++ dest.drop n

/-- Bytes of the literal `"Johnny 5"` without its terminator. -/
def johnnyBytes : List Nat := [74, 111, 104, 110, 110, 121, 32, 53]

/-- Bytes of the C string literal `"Johnny 5"`, terminator included. -/
def johnny5 : List Nat := johnnyBytes ++ [0]

/-- Mutation performed on success:
`strncpy(name->version, "Johnny 5", sizeof(name->version))`. -/
def setVersion (u : Utsname) : Utsname :=
  { u with version := strncpy u.version johnny5 SYS_NAMELEN }

/-- Symbol table of one loaded module: symbol names paired with code
addresses. -/
abbrev SymTable := List (String × Nat)

/-- Dynamic loader state: the loaded modules in search order, each a library
name with its symbol table, and the index of the module issuing the queries
(the interposing library itself). -/
structure LoaderState where
  modules : List (String × SymTable)
  callerIndex : Nat

/-- First address bound to a symbol name in one module's table. -/
def lookupSym : SymTable → String → Option Nat
  | [], _ => none
  | (s, a) :: rest, q => if s = q then some a else lookupSym rest q

/-- First binding of a symbol across a list of modules, in search order. -/
def searchModules : List (String × SymTable) → String → Option Nat
  | [], _ => none
  | m :: rest, q =>
    match lookupSym m.2 q with
    | some a => some a
    | none => searchModules rest q

/-- Behaviour of `dlsym(RTLD_NEXT, q)`: resolve using the search order that
begins after the module making the query. -/
def dlsymNext (ld : LoaderState) (q : String) : Option Nat :=
  searchModules (ld.modules.drop (ld.callerIndex + 1)) q

/-- Index of the first module loaded under a given library name. -/
def findModuleIdx : List (String × SymTable) → String → Option Nat
  | [], _ => none
  | m :: rest, lib =>
    if m.1 = lib then some 0 else (findModuleIdx rest lib).map (· + 1)

/-- Binding mode passed to `dlopen`; the source uses `RTLD_NOW`. -/
inductive BindMode where
  | now
  | lazy
deriving DecidableEq

/-- Behaviour of `dlopen(lib, mode)`: a handle to the first module loaded
under that name, null (`none`) when absent. The mode does not change which
module is found; it is recorded in the call trace. -/
def dlopen (ld : LoaderState) (lib : String) : Option Nat :=
  findModuleIdx ld.modules lib

/-- Behaviour of `dlsym(handle, q)` against a specific module handle; a null
handle yields null. -/
def dlsymFrom (ld : LoaderState) (h : Option Nat) (q : String) : Option Nat :=
  match h with
  | none => none
  | some i =>
    match ld.modules[i]? with
    | none => none
    | some m => lookupSym m.2 q

/-- Host loader convention selected at build time by `#ifdef __APPLE__`. -/
inductive Host where
  | linux
  | apple
deriving DecidableEq

/-- One call the resolver makes into the dynamic loader. -/
inductive LoaderCall where
  | dlsymNextCall (sym : String)
  | dlopenCall (lib : String) (mode : BindMode)
  | dlsymFromCall (handle : Option Nat) (sym : String)
deriving DecidableEq

/-- Resolution block of the interposing `uname`, with the loader calls it
makes: on Linux a single `dlsym(RTLD_NEXT, __func__)`; on OS X
`dlopen("libc.dylib", RTLD_NOW)` followed by `dlsym` on that handle. -/
def resolveTrace (host : Host) (ld : LoaderState) (fname : String) :
    Option Nat × List LoaderCall :=
  match host with
  | .linux => (dlsymNext ld fname, [.dlsymNextCall fname])
  | .apple =>
    let h := dlopen ld "libc.dylib"
    (dlsymFrom ld h fname, [.dlopenCall "libc.dylib" .now, .dlsymFromCall h fname])

/-- Resolved address of the original function, as the source computes it. -/
def resolve (host : Host) (ld : LoaderState) (fname : String) : Option Nat :=
  (resolveTrace host ld fname).1

/-- Stream a diagnostic is written to. The source uses `printf`, which writes
to the standard output stream. -/
inductive OutStream where
  | stdout
  | stderr
deriving DecidableEq

/-- Text produced by
`printf("ERROR: Failed to locate original %s() function; exiting\n", __func__)`. -/
def errOutput (fname : String) : String :=
  "ERROR: Failed to locate original " ++ fname ++ "() function; exiting\n"

/-- Result of one invocation of the interposing `uname`. An `ok` outcome
carries the returned status, the caller's buffer afterwards, the address the
call was delegated through (the new value of the static slot), and whether
this invocation performed resolver work. `exited` is process termination on
the fatal path; `nullDeref` marks a call through a null function pointer. -/
inductive Outcome where
  | exited (stream : OutStream) (output : String) (status : Nat)
  | nullDeref
  | ok (ret : Int) (out : Utsname) (usedPtr : Nat) (didResolve : Bool)
deriving DecidableEq

/-- Tail of the interposing `uname` after the resolution block: call the
original through the possibly-null pointer `original`, on status 0 rewrite the
version field, and return the status unchanged. `impls` gives the behaviour of
loaded code: address and caller's buffer in, status and buffer out. -/
def delegate (impls : Nat → Utsname → Int × Utsname) (original : Option Nat)
    (u : Utsname) (didResolve : Bool) : Outcome :=
  match original with
  | none => .nullDeref
  | some a =>
    let ru := impls a u
    if ru.1 = 0 then .ok ru.1 (setVersion ru.2) a didResolve
    else .ok ru.1 ru.2 a didResolve

/-- The interposing `uname` of `interpose_uname.c`, the static slot threaded
explicitly: if the slot is null, run the host-conditional resolver; if that
still yields null, print the diagnostic and exit with status 1; otherwise
delegate through the pointer and post-process. -/
def uname (host : Host) (ld : LoaderState) (impls : Nat → Utsname → Int × Utsname)
    (original : Option Nat) (u : Utsname) : Outcome :=
  match original with
  | none =>
    match resolve host ld "uname" with
    | none => .exited .stdout (errOutput "uname") 1
    | some a => delegate impls (some a) u true
  | some a => delegate impls (some a) u false

/-- Whether the process is still running, and the value of the static slot
when it is. -/
inductive ProcState where
  | running (slot : Option Nat)
  | terminated
deriving DecidableEq

/-- Repeated invocations of the interposing `uname` in one process, threading
the static slot; a non-`ok` outcome stops the run. -/
def runCalls (host : Host) (ld : LoaderState) (impls : Nat → Utsname → Int × Utsname) :
    Option Nat → List Utsname → List Outcome × ProcState
  | slot, [] => ([], .running slot)
  | slot, u :: us =>
    match uname host ld impls slot u with
    | .ok r out p d =>
      let rest := runCalls host ld impls (some p) us
      (.ok r out p d :: rest.1, rest.2)
    | o => ([o], .terminated)

/-- Delegation pointers of the successful outcomes of a run. -/
def okPtrs (os : List Outcome) : List Nat :=
  os.filterMap fun o =>
    match o with
    | .ok _ _ p _ => some p
    | _ => none

/-- Number of calls in a run whose outcome performed resolver work. -/
def resolveCount (os : List Outcome) : Nat :=
  (os.filter fun o =>
    match o with
    | .ok _ _ _ true => true
    | _ => false).length

/-- An address appears in a module's symbol table. -/
def addrInTable (tbl : SymTable) (a : Nat) : Prop := ∃ p ∈ tbl, p.2 = a

instance (tbl : SymTable) (a : Nat) : Decidable (addrInTable tbl a) :=
  List.decidableBEx _ tbl

/-- Symbol table of the module at a given search-order index, empty when the
index is out of range. -/
def tableAt (ld : LoaderState) (i : Nat) : SymTable :=
  (ld.modules[i]?).elim [] (·.2)

/-- Library name of the module at a given search-order index, empty when the
index is out of range. -/
def nameAt (ld : LoaderState) (i : Nat) : String :=
  (ld.modules[i]?).elim "" (·.1)

/-- Modelled from the spec: the "standard diagnostic stream" the spec names as
the destination of the fatal diagnostic, i.e. the standard error stream. Kept
separate from the embedding of the code, which is compared against it. -/
def standardDiagnosticStream : OutStream := .stderr

/-- Modelled from the spec, convention A: walk the modules with their
search-order indices and take the first binding of the symbol in a module
strictly after the querying one. -/
def specSearchFrom : List (Nat × (String × SymTable)) → Nat → String → Option Nat
  | [], _, _ => none
  | im :: rest, caller, q =>
    if caller < im.1 then
      match lookupSym im.2.2 q with
      | some a => some a
      | none => specSearchFrom rest caller q
    else specSearchFrom rest caller q

/-- Modelled from the spec, convention B: name the system library explicitly
and take the first module loaded under that name. -/
def specOpenLib : List (String × SymTable) → String → Option (String × SymTable)
  | [], _ => none
  | m :: rest, lib => if m.1 = lib then some m else specOpenLib rest lib

/-- Modelled from the spec (§4.1): under convention A the resolver "requests
the symbol under this sentinel", the search order beginning after the querying
module; under convention B it names the system library, acquires a handle to
it, and queries the symbol "from that specific handle". -/
def specResolve (host : Host) (ld : LoaderState) (q : String) : Option Nat :=
  match host with
  | .linux => specSearchFrom ld.modules.enum ld.callerIndex q
  | .apple =>
    match specOpenLib ld.modules "libc.dylib" with
    | none => none
    | some m => lookupSym m.2 q

/-- Blank caller buffer. -/
def u0 : Utsname := ⟨[], [], [], [], []⟩

/-- Well-formed caller buffer: every field at its full C capacity. -/
def u256 : Utsname :=
  ⟨List.replicate SYS_NAMELEN 0, List.replicate SYS_NAMELEN 0,
   List.replicate SYS_NAMELEN 0, List.replicate SYS_NAMELEN 0,
   List.replicate SYS_NAMELEN 0⟩

/-- Loader with no modules: every resolution fails. -/
def emptyLd : LoaderState := ⟨[], 0⟩

/-- Two-module loader: the interposer first in search order, then libc, each
defining `uname` at a distinct address. -/
def ld2 : LoaderState :=
  ⟨[("interpose.so", [("uname", 100)]), ("libc.dylib", [("uname", 200)])], 0⟩

/-- Environment in which every address behaves as a successful `uname` that
fills each field to capacity. -/
def implsOk : Nat → Utsname → Int × Utsname := fun _ _ => (0, u256)

/-- Environment in which every address behaves as a failing `uname` returning
-1 and leaving the buffer as given. -/
def implsFail : Nat → Utsname → Int × Utsname := fun _ u => (-1, u)

/-! ## Step lemmas for the interposing entry -/

/-- With the slot already populated, the call is `delegate` through the cached
pointer with no resolver work. -/
theorem uname_some (host : Host) (ld : LoaderState)
    (impls : Nat → Utsname → Int × Utsname) (p : Nat) (u : Utsname) :
    uname host ld impls (some p) u =
      if (impls p u).1 = 0 then .ok (impls p u).1 (setVersion (impls p u).2) p false
      else .ok (impls p u).1 (impls p u).2 p false := rfl

/-- With the slot null and resolution succeeding, the call delegates through
the freshly resolved pointer. -/
theorem uname_none (host : Host) (ld : LoaderState)
    (impls : Nat → Utsname → Int × Utsname) (u : Utsname) (a : Nat)
    (hres : resolve host ld "uname" = some a) :
    uname host ld impls none u =
      if (impls a u).1 = 0 then .ok (impls a u).1 (setVersion (impls a u).2) a true
      else .ok (impls a u).1 (impls a u).2 a true := by
  simp only [uname, hres]
  rfl

/-- With the slot null and resolution failing, the process terminates. -/
theorem uname_none_fail (host : Host) (ld : LoaderState)
    (impls : Nat → Utsname → Int × Utsname) (u : Utsname)
    (hres : resolve host ld "uname" = none) :
    uname host ld impls none u = .exited .stdout (errOutput "uname") 1 := by
  simp only [uname, hres]

/-- Inversion of a successful outcome: the returned status is the delegated
call's status, the buffer is that call's buffer with the version field
rewritten exactly on status 0, and the pointer used came from the slot or,
when the slot was null, from the resolver. -/
theorem uname_ok_inv {host : Host} {ld : LoaderState}
    {impls : Nat → Utsname → Int × Utsname} {slot : Option Nat} {u : Utsname}
    {r : Int} {out : Utsname} {p : Nat} {d : Bool}
    (h : uname host ld impls slot u = .ok r out p d) :
    r = (impls p u).1 ∧
    out = (if (impls p u).1 = 0 then setVersion (impls p u).2 else (impls p u).2) ∧
    (slot = some p ∧ d = false ∨
      slot = none ∧ resolve host ld "uname" = some p ∧ d = true) := by
  cases slot with
  | some b =>
    rw [uname_some host ld impls b u] at h
    by_cases h0 : (impls b u).1 = 0
    · rw [if_pos h0] at h
      injection h with h1 h2 h3 h4
      subst h3
      exact ⟨h1.symm, by rw [if_pos h0, h2], Or.inl ⟨rfl, h4.symm⟩⟩
    · rw [if_neg h0] at h
      injection h with h1 h2 h3 h4
      subst h3
      exact ⟨h1.symm, by rw [if_neg h0, h2], Or.inl ⟨rfl, h4.symm⟩⟩
  | none =>
    cases hres : resolve host ld "uname" with
    | none =>
      rw [uname_none_fail host ld impls u hres] at h
      exact absurd h (by simp)
    | some b =>
      rw [uname_none host ld impls u b hres] at h
      by_cases h0 : (impls b u).1 = 0
      · rw [if_pos h0] at h
        injection h with h1 h2 h3 h4
        subst h3
        exact ⟨h1.symm, by rw [if_pos h0, h2], Or.inr ⟨rfl, rfl, h4.symm⟩⟩
      · rw [if_neg h0] at h
        injection h with h1 h2 h3 h4
        subst h3
        exact ⟨h1.symm, by rw [if_neg h0, h2], Or.inr ⟨rfl, rfl, h4.symm⟩⟩

/-- Computation of the bounded copy on the program's literal: eight text bytes
and then null padding to the field capacity. -/
theorem strncpyFill_johnny :
    strncpyFill johnny5 SYS_NAMELEN = johnnyBytes ++ List.replicate 248 0 := by
  decide

/-! ## The claims -/

/-- C7: for every call of the interposing uname that does not take the fatal
resolution-failure path, the integer value returned to the caller equals
exactly the value returned by the delegated original call, whether that value
indicates success or failure. -/
theorem c7_status_passthrough (host : Host) (ld : LoaderState)
    (impls : Nat → Utsname → Int × Utsname) (slot : Option Nat) (u : Utsname)
    (r : Int) (out : Utsname) (p : Nat) (d : Bool)
    (h : uname host ld impls slot u = .ok r out p d) :
    r = (impls p u).1 :=
  (uname_ok_inv h).1

theorem c7_status_passthrough_witness : (-1 : Int) = (implsFail 5 u0).1 :=
  c7_status_passthrough .linux ld2 implsFail (some 5) u0 (-1) u0 5 false (by decide)

/-- C4: for every input on which the delegated original uname returns a
non-zero status, the interposing uname returns that identical status and
performs no mutation of the caller's output structure beyond what the original
itself wrote. -/
theorem c4_transparent_on_failure (host : Host) (ld : LoaderState)
    (impls : Nat → Utsname → Int × Utsname) (slot : Option Nat) (u : Utsname)
    (r : Int) (out : Utsname) (p : Nat) (d : Bool)
    (h : uname host ld impls slot u = .ok r out p d) (hr : r ≠ 0) :
    r = (impls p u).1 ∧ out = (impls p u).2 := by
  obtain ⟨h1, h2, -⟩ := uname_ok_inv h
  subst h1
  rw [if_neg hr] at h2
  exact ⟨rfl, h2⟩

theorem c4_transparent_on_failure_witness :
    (-1 : Int) = (implsFail 7 u0).1 ∧ u0 = (implsFail 7 u0).2 :=
  c4_transparent_on_failure .apple ld2 implsFail (some 7) u0 (-1) u0 7 false
    (by decide) (by decide)

/-- C6: on a successful call (delegated status zero), every field of the
output structure other than the version field (sysname, nodename, release,
machine) is byte-identical to the value the original uname wrote; the
interposer writes to no other field. -/
theorem c6_other_fields_untouched (host : Host) (ld : LoaderState)
    (impls : Nat → Utsname → Int × Utsname) (slot : Option Nat) (u : Utsname)
    (r : Int) (out : Utsname) (p : Nat) (d : Bool)
    (h : uname host ld impls slot u = .ok r out p d) (hr : r = 0) :
    out.sysname = (impls p u).2.sysname ∧ out.nodename = (impls p u).2.nodename ∧
    out.release = (impls p u).2.release ∧ out.machine = (impls p u).2.machine := by
  obtain ⟨h1, h2, -⟩ := uname_ok_inv h
  rw [hr] at h1
  rw [if_pos h1.symm] at h2
  subst h2
  simp [setVersion]

theorem c6_other_fields_untouched_witness :
    (setVersion u256).sysname = (implsOk 3 u0).2.sysname ∧
    (setVersion u256).nodename = (implsOk 3 u0).2.nodename ∧
    (setVersion u256).release = (implsOk 3 u0).2.release ∧
    (setVersion u256).machine = (implsOk 3 u0).2.machine :=
  c6_other_fields_untouched .linux ld2 implsOk (some 3) u0 0 (setVersion u256) 3
    false (by decide) rfl

/-- C5: for every input on which the delegated original uname returns zero,
after the interposing uname returns, the version field of the output structure
begins with the byte sequence `Johnny 5` followed by a terminator, occupying
at most the field's fixed capacity of `SYS_NAMELEN` bytes. -/
theorem c5_version_starts_johnny (host : Host) (ld : LoaderState)
    (impls : Nat → Utsname → Int × Utsname) (slot : Option Nat) (u : Utsname)
    (r : Int) (out : Utsname) (p : Nat) (d : Bool)
    (h : uname host ld impls slot u = .ok r out p d) (hr : r = 0)
    (hw : (impls p u).2.version.length = SYS_NAMELEN) :
    out.version.take 8 = johnnyBytes ∧ out.version[8]? = some 0 ∧
    out.version.length = SYS_NAMELEN := by
  obtain ⟨h1, h2, -⟩ := uname_ok_inv h
  rw [hr] at h1
  rw [if_pos h1.symm] at h2
  subst h2
  have hd : (impls p u).2.version.drop SYS_NAMELEN = [] :=
    List.drop_eq_nil_of_le (le_of_eq hw)
  simp only [setVersion, strncpy, hd, List.append_nil, strncpyFill_johnny]
  decide

theorem c5_version_starts_johnny_witness :
    (setVersion u256).version.take 8 = johnnyBytes ∧
    (setVersion u256).version[8]? = some 0 ∧
    (setVersion u256).version.length = SYS_NAMELEN :=
  c5_version_starts_johnny .linux ld2 implsOk (some 3) u0 0 (setVersion u256) 3
    false (by decide) rfl (by decide)

/-- C9: on success, the bounded copy overwrites the entire version field to
its full capacity: bytes 0..7 hold `Johnny 5` and every remaining byte of the
field up to its capacity is the null byte, so no byte of the field's previous
contents survives and the field is terminated well within capacity. -/
theorem c9_version_fully_overwritten (host : Host) (ld : LoaderState)
    (impls : Nat → Utsname → Int × Utsname) (slot : Option Nat) (u : Utsname)
    (r : Int) (out : Utsname) (p : Nat) (d : Bool)
    (h : uname host ld impls slot u = .ok r out p d) (hr : r = 0)
    (hw : (impls p u).2.version.length = SYS_NAMELEN) :
    out.version = johnnyBytes ++ List.replicate (SYS_NAMELEN - 8) 0 := by
  obtain ⟨h1, h2, -⟩ := uname_ok_inv h
  rw [hr] at h1
  rw [if_pos h1.symm] at h2
  subst h2
  have hd : (impls p u).2.version.drop SYS_NAMELEN = [] :=
    List.drop_eq_nil_of_le (le_of_eq hw)
  simp only [setVersion, strncpy, hd, List.append_nil, strncpyFill_johnny]
  decide

theorem c9_version_fully_overwritten_witness :
    (setVersion u256).version = johnnyBytes ++ List.replicate (SYS_NAMELEN - 8) 0 :=
  c9_version_fully_overwritten .apple ld2 implsOk (some 4) u0 0 (setVersion u256) 4
    false (by decide) rfl (by decide)

/-- C10: the indirect call through the resolved-original slot is never
performed with a null pointer: on every path that reaches the delegated call
the slot is non-null, because a null resolution result terminates the process
before the call site is reached. -/
theorem c10_no_null_call (host : Host) (ld : LoaderState)
    (impls : Nat → Utsname → Int × Utsname) (slot : Option Nat) (u : Utsname) :
    uname host ld impls slot u ≠ .nullDeref := by
  cases slot with
  | some b =>
    rw [uname_some host ld impls b u]
    split <;> simp
  | none =>
    cases hres : resolve host ld "uname" with
    | none => rw [uname_none_fail host ld impls u hres]; simp
    | some b =>
      rw [uname_none host ld impls u b hres]
      split <;> simp

/-- With the slot already populated, a run never terminates the process,
performs no resolver work, and delegates every call through the cached
pointer. -/
theorem runCalls_some_spec (host : Host) (ld : LoaderState)
    (impls : Nat → Utsname → Int × Utsname) :
    ∀ (vs : List Utsname) (p : Nat),
      (runCalls host ld impls (some p) vs).2 = .running (some p) ∧
      resolveCount (runCalls host ld impls (some p) vs).1 = 0 ∧
      okPtrs (runCalls host ld impls (some p) vs).1 = List.replicate vs.length p := by
  intro vs
  induction vs with
  | nil => exact fun p => ⟨rfl, rfl, rfl⟩
  | cons u us ih =>
    intro p
    obtain ⟨ih1, ih2, ih3⟩ := ih p
    by_cases h0 : (impls p u).1 = 0
    · have hstep : uname host ld impls (some p) u =
          .ok (impls p u).1 (setVersion (impls p u).2) p false := by
        rw [uname_some, if_pos h0]
      simp only [runCalls, hstep]
      refine ⟨ih1, ?_, ?_⟩
      · simpa [resolveCount, List.filter_cons] using ih2
      · simpa [okPtrs, List.filterMap_cons, List.replicate_succ] using ih3
    · have hstep : uname host ld impls (some p) u =
          .ok (impls p u).1 (impls p u).2 p false := by
        rw [uname_some, if_neg h0]
      simp only [runCalls, hstep]
      refine ⟨ih1, ?_, ?_⟩
      · simpa [resolveCount, List.filter_cons] using ih2
      · simpa [okPtrs, List.filterMap_cons, List.replicate_succ] using ih3

/-- C2: the resolved-original slot starts null, becomes non-null at most once
and never transitions back: in a run started with a null slot, resolver work
happens in at most one call and every successful call delegates through one
and the same pointer; and once the slot holds a pointer, the run keeps that
slot value forever, performs no further resolver work and delegates every
call through it. -/
theorem c2_idempotent_caching (host : Host) (ld : LoaderState)
    (impls : Nat → Utsname → Int × Utsname) :
    (∀ us : List Utsname,
      resolveCount (runCalls host ld impls none us).1 ≤ 1 ∧
      ∀ x y, x ∈ okPtrs (runCalls host ld impls none us).1 →
        y ∈ okPtrs (runCalls host ld impls none us).1 → x = y) ∧
    (∀ (p : Nat) (vs : List Utsname),
      (runCalls host ld impls (some p) vs).2 = .running (some p) ∧
      resolveCount (runCalls host ld impls (some p) vs).1 = 0 ∧
      okPtrs (runCalls host ld impls (some p) vs).1 = List.replicate vs.length p) := by
  refine ⟨?_, fun p vs => runCalls_some_spec host ld impls vs p⟩
  intro us
  cases us with
  | nil =>
    exact ⟨by simp [runCalls, resolveCount],
      fun x y hx _ => absurd hx (by simp [runCalls, okPtrs])⟩
  | cons u us =>
    cases hres : resolve host ld "uname" with
    | none =>
      have hstep := uname_none_fail host ld impls u hres
      simp only [runCalls, hstep]
      refine ⟨by simp [resolveCount], fun x y hx _ => absurd hx (by simp [okPtrs])⟩
    | some b =>
      obtain ⟨-, hc, hp⟩ := runCalls_some_spec host ld impls us b
      have hstep : ∃ r out, uname host ld impls none u = .ok r out b true := by
        rw [uname_none host ld impls u b hres]
        by_cases h0 : (impls b u).1 = 0
        · exact ⟨_, _, if_pos h0⟩
        · exact ⟨_, _, if_neg h0⟩
      obtain ⟨r, out, hstep⟩ := hstep
      simp only [runCalls, hstep]
      have hall : okPtrs (Outcome.ok r out b true ::
          (runCalls host ld impls (some b) us).1) =
          b :: List.replicate us.length b := by
        simp only [okPtrs, List.filterMap_cons]
        exact congrArg (List.cons b) hp
      constructor
      · have hone : resolveCount (Outcome.ok r out b true ::
            (runCalls host ld impls (some b) us).1) =
            resolveCount (runCalls host ld impls (some b) us).1 + 1 := by
          simp [resolveCount, List.filter_cons]
        rw [hone, hc]
      · intro x y hx hy
        rw [hall] at hx hy
        have ex : x = b := by
          rcases List.mem_cons.mp hx with h | h
          · exact h
          · exact List.eq_of_mem_replicate h
        have ey : y = b := by
          rcases List.mem_cons.mp hy with h | h
          · exact h
          · exact List.eq_of_mem_replicate h
        rw [ex, ey]

/-- C3 (amended): if symbol resolution yields a null pointer, the interposer
emits exactly one line of the form `ERROR: Failed to locate original uname()
function; exiting` to the standard output stream (the source prints it with
`printf`) and then terminates the process with exit status 1, with no
recovery and no delegated call. -/
theorem c3_resolution_failure_exits (host : Host) (ld : LoaderState)
    (impls : Nat → Utsname → Int × Utsname) (u : Utsname)
    (hres : resolve host ld "uname" = none) :
    uname host ld impls none u =
      .exited .stdout "ERROR: Failed to locate original uname() function; exiting\n" 1 := by
  rw [uname_none_fail host ld impls u hres]
  simp [errOutput]

theorem c3_resolution_failure_exits_witness :
    uname .apple emptyLd implsOk none u0 =
      .exited .stdout "ERROR: Failed to locate original uname() function; exiting\n" 1 :=
  c3_resolution_failure_exits .apple emptyLd implsOk u0 (by decide)

/-- C3 counterexample: the fatal diagnostic is written with `printf`, i.e. to
the standard output stream, which is not the standard diagnostic (error)
stream the claim names as its destination. -/
theorem c3_stream_counterexample :
    uname .linux emptyLd implsOk none u0 = .exited .stdout (errOutput "uname") 1 ∧
    OutStream.stdout ≠ standardDiagnosticStream :=
  ⟨rfl, by decide⟩

/-- Membership extraction from a symbol-table lookup. -/
theorem lookupSym_mem {tbl : SymTable} {q : String} {a : Nat}
    (h : lookupSym tbl q = some a) : addrInTable tbl a := by
  induction tbl with
  | nil => exact absurd h (by simp [lookupSym])
  | cons x rest ih =>
    obtain ⟨s, b⟩ := x
    simp only [lookupSym] at h
    by_cases hs : s = q
    · rw [if_pos hs] at h
      injection h with hb
      exact ⟨(s, b), List.mem_cons_self _ _, hb⟩
    · rw [if_neg hs] at h
      obtain ⟨p, hp, hpa⟩ := ih h
      exact ⟨p, List.mem_cons_of_mem _ hp, hpa⟩

/-- Index extraction from a search across modules. -/
theorem searchModules_mem {ms : List (String × SymTable)} {q : String} {a : Nat}
    (h : searchModules ms q = some a) :
    ∃ (j : Nat) (mm : String × SymTable), ms[j]? = some mm ∧ lookupSym mm.2 q = some a := by
  induction ms with
  | nil => exact absurd h (by simp [searchModules])
  | cons m rest ih =>
    rw [searchModules] at h
    cases hl : lookupSym m.2 q with
    | some b =>
      simp only [hl] at h
      injection h with hb
      subst hb
      exact ⟨0, m, List.getElem?_cons_zero, hl⟩
    | none =>
      simp only [hl] at h
      obtain ⟨j, m2, hj, hm2⟩ := ih h
      exact ⟨j + 1, m2, by rw [List.getElem?_cons_succ]; exact hj, hm2⟩

/-- Index extraction from a dlopen lookup: the handle points at a module
actually loaded under the requested name. -/
theorem findModuleIdx_spec {ms : List (String × SymTable)} {lib : String} {i : Nat}
    (h : findModuleIdx ms lib = some i) :
    ∃ m, ms[i]? = some m ∧ m.1 = lib := by
  induction ms generalizing i with
  | nil => exact absurd h (by simp [findModuleIdx])
  | cons m rest ih =>
    simp only [findModuleIdx] at h
    by_cases hm : m.1 = lib
    · rw [if_pos hm] at h
      injection h with hi
      subst hi
      exact ⟨m, List.getElem?_cons_zero, hm⟩
    · rw [if_neg hm] at h
      cases hf : findModuleIdx rest lib with
      | none => rw [hf] at h; exact absurd h (by simp)
      | some j =>
        rw [hf] at h
        simp only [Option.map_some'] at h
        injection h with hi
        obtain ⟨m2, hj, hlib⟩ := ih hf
        subst hi
        exact ⟨m2, by rw [List.getElem?_cons_succ]; exact hj, hlib⟩

/-- C1: under either host loader convention, the pointer the resolver returns
is never the address of the interposing uname entry point itself, provided
that address appears in no module's symbol table other than the querying
module's own, and the querying module is not itself loaded under the name
`libc.dylib`; so the delegated call never recurses into the interposer. -/
theorem c1_no_self_recursion (host : Host) (ld : LoaderState) (a entry : Nat)
    (hmods : ∀ i < ld.modules.length, i ≠ ld.callerIndex →
      ¬ addrInTable (tableAt ld i) entry)
    (hname : nameAt ld ld.callerIndex ≠ "libc.dylib")
    (hres : resolve host ld "uname" = some a) : a ≠ entry := by
  intro heq
  subst heq
  cases host with
  | linux =>
    have h1 : searchModules (ld.modules.drop (ld.callerIndex + 1)) "uname" = some a :=
      hres
    obtain ⟨j, m, hj, hla⟩ := searchModules_mem h1
    rw [List.getElem?_drop] at hj
    have hlt := (List.getElem?_eq_some.mp hj).1
    have hne : ld.callerIndex + 1 + j ≠ ld.callerIndex := by omega
    have htab : tableAt ld (ld.callerIndex + 1 + j) = m.2 := by
      simp [tableAt, hj]
    exact hmods _ hlt hne (htab ▸ lookupSym_mem hla)
  | apple =>
    have h1 : dlsymFrom ld (dlopen ld "libc.dylib") "uname" = some a := hres
    cases hop : findModuleIdx ld.modules "libc.dylib" with
    | none =>
      rw [show dlopen ld "libc.dylib" = none from hop] at h1
      exact absurd h1 (by simp [dlsymFrom])
    | some i =>
      rw [show dlopen ld "libc.dylib" = some i from hop] at h1
      obtain ⟨m, hi, hlib⟩ := findModuleIdx_spec hop
      simp only [dlsymFrom, hi] at h1
      have hlt := (List.getElem?_eq_some.mp hi).1
      have hne : i ≠ ld.callerIndex := by
        intro hic
        apply hname
        rw [← hic]
        simp [nameAt, hi, hlib]
      have htab : tableAt ld i = m.2 := by simp [tableAt, hi]
      exact hmods i hlt hne (htab ▸ lookupSym_mem h1)

theorem c1_no_self_recursion_witness : (200 : Nat) ≠ 100 :=
  c1_no_self_recursion .linux ld2 200 100 (by decide) (by decide) (by decide)

/-- A spec-side search whose enumerated indices all lie past the caller skips
nothing: it is the plain in-order search. -/
theorem specSearchFrom_all (ms : List (String × SymTable)) :
    ∀ (k caller : Nat) (q : String), caller < k →
      specSearchFrom (ms.enumFrom k) caller q = searchModules ms q := by
  induction ms with
  | nil => intro k caller q hk; rfl
  | cons m rest ih =>
    intro k caller q hk
    simp only [List.enumFrom, specSearchFrom, searchModules]
    rw [if_pos hk]
    cases hl : lookupSym m.2 q with
    | some a => simp only [hl]
    | none => simp only [hl]; exact ih (k + 1) caller q (Nat.lt_succ_of_lt hk)

/-- A spec-side search whose enumeration starts at or before the caller index
is the in-order search of the modules strictly after the caller. -/
theorem specSearchFrom_drop (ms : List (String × SymTable)) :
    ∀ (k caller : Nat) (q : String), k ≤ caller →
      specSearchFrom (ms.enumFrom k) caller q =
        searchModules (ms.drop (caller + 1 - k)) q := by
  induction ms with
  | nil =>
    intro k caller q hk
    simp [List.enumFrom, specSearchFrom, List.drop_nil, searchModules]
  | cons m rest ih =>
    intro k caller q hk
    simp only [List.enumFrom, specSearchFrom]
    rw [if_neg (by omega : ¬ caller < k)]
    by_cases hkc : k = caller
    · subst hkc
      rw [specSearchFrom_all rest (k + 1) k q (Nat.lt_succ_self k)]
      rw [show k + 1 - k = 1 from by omega, List.drop_succ_cons, List.drop_zero]
    · rw [ih (k + 1) caller q (by omega)]
      rw [show caller + 1 - k = (caller + 1 - (k + 1)) + 1 from by omega,
        List.drop_succ_cons]

/-- The code's RTLD_NEXT resolution agrees with the spec-modelled
convention-A search over indexed modules. -/
theorem dlsymNext_eq_spec (ld : LoaderState) (q : String) :
    dlsymNext ld q = specSearchFrom ld.modules.enum ld.callerIndex q :=
  (specSearchFrom_drop ld.modules 0 ld.callerIndex q (Nat.zero_le _)).symm

/-- Dereferencing the dlopen handle lands on the first module loaded under
the requested library name. -/
theorem dlopen_spec (ms : List (String × SymTable)) (lib : String) :
    (match findModuleIdx ms lib with
     | none => none
     | some i => ms[i]?) = specOpenLib ms lib := by
  induction ms with
  | nil => rfl
  | cons m rest ih =>
    simp only [findModuleIdx, specOpenLib]
    by_cases hm : m.1 = lib
    · rw [if_pos hm, if_pos hm]
      exact List.getElem?_cons_zero
    · rw [if_neg hm, if_neg hm]
      cases hf : findModuleIdx rest lib with
      | none =>
        rw [hf] at ih
        simpa using ih
      | some j =>
        rw [hf] at ih
        simpa [List.getElem?_cons_succ] using ih

/-- The code's OS X resolution (dlopen handle, then dlsym from that handle)
agrees with the spec-modelled convention-B lookup. -/
theorem dlsymFrom_dlopen_spec (ld : LoaderState) (q : String) :
    dlsymFrom ld (dlopen ld "libc.dylib") q =
      (match specOpenLib ld.modules "libc.dylib" with
       | none => none
       | some m => lookupSym m.2 q) := by
  have h := dlopen_spec ld.modules "libc.dylib"
  cases hf : findModuleIdx ld.modules "libc.dylib" with
  | none =>
    rw [hf] at h
    rw [show dlopen ld "libc.dylib" = none from hf, ← h]
    rfl
  | some i =>
    rw [hf] at h
    rw [show dlopen ld "libc.dylib" = some i from hf, ← h]
    rfl

/-- C8: the resolver implements exactly the two host-conditional strategies
selected at build time. Under convention A (Linux) its one loader call is a
query of the symbol name via the next-in-search-order sentinel, naming no
library; under convention B (OS X) its loader calls are an open of the system
library `libc.dylib` by name with immediate binding (`RTLD_NOW`) and a query
of the symbol from that specific handle; and on both hosts the resolved
address agrees with the spec-modelled strategy. -/
theorem c8_two_resolver_strategies (ld : LoaderState) (q : String) :
    (∀ host, resolve host ld q = specResolve host ld q) ∧
    (resolveTrace .linux ld q).2 = [.dlsymNextCall q] ∧
    (resolveTrace .apple ld q).2 =
      [.dlopenCall "libc.dylib" .now, .dlsymFromCall (dlopen ld "libc.dylib") q] := by
  refine ⟨?_, rfl, rfl⟩
  intro host
  cases host with
  | linux => exact dlsymNext_eq_spec ld q
  | apple => exact dlsymFrom_dlopen_spec ld q

end Interpose
